import Mathlib

/-!
Verification development for the notification-receiver configuration
decoders of `src/config/notifies.go` (package `config`).

Each Go `UnmarshalYAML` method is embedded as a pure Lean function from an
input block (the YAML mapping restricted to the variant's schema, with
`Option` marking whether a key was supplied, plus the list of residual
unknown keys caught by the inline `XXX` map) to `Except String Config`,
where the `String` is the `fmt.Errorf` message the Go code produces.
Go maps are modelled as association lists with distinct keys; map access
`m[k]` is `mapLookup`.
-/

/-- Go map access `m[k]` for a `map[string]string` modelled as an
association list: the value at the first matching key, if any. -/
def mapLookup (k : String) : List (String × String) → Option String
  | [] => none
  | p :: rest => if p.1 = k then some p.2 else mapLookup k rest

/-- The character mapping of Go `strings.ToTitle` restricted to the ASCII
plane, where Unicode title case sends the letters at code points 97..122
to the ones at 65..90 (subtract 32) and leaves every other ASCII
character unchanged. All strings appearing in the claims are ASCII. -/
def titleChar (c : Char) : Char :=
  if 97 ≤ c.toNat ∧ c.toNat ≤ 122 then Char.ofNat (c.toNat - 32) else c

/-- Go `strings.ToTitle`: maps every character to its title case. -/
def stringsToTitle (s : String) : String := String.mk (s.data.map titleChar)

/-- Go `fmt` verb `%q` applied to a string containing no characters that
need escaping: surround with double quotes. -/
def goQuote (s : String) : String := "\"" ++ s ++ "\""

/-- Modelled from the spec: the function `checkOverflow` is called by every
`UnmarshalYAML` method in `src/config/notifies.go` but its definition lives
elsewhere in the repository and is not among the supplied sources. Per
§4.3 of the spec, a non-empty residual-key set fails with an
"unrecognized field(s) in `<variant>` config" error naming every residual
key; the `ctx` argument is the variant-config context string the caller
passes. -/
def checkOverflow (xs : List String) (ctx : String) : Except String Unit :=
  if xs.isEmpty then Except.ok ()
  else Except.error ("unrecognized field(s) in " ++ ctx ++ ": " ++ String.intercalate ", " xs)

instance {ε α : Type} [DecidableEq ε] [DecidableEq α] : DecidableEq (Except ε α) := fun x y =>
  match x, y with
  | Except.ok a, Except.ok b =>
    if h : a = b then isTrue (by rw [h]) else isFalse (fun hc => by cases hc; exact h rfl)
  | Except.ok _, Except.error _ => isFalse (fun hc => by cases hc)
  | Except.error _, Except.ok _ => isFalse (fun hc => by cases hc)
  | Except.error e, Except.error f =>
    if h : e = f then isTrue (by rw [h]) else isFalse (fun hc => by cases hc; exact h rfl)

/-! ## Webhook variant (`WebhookConfig`, notifies.go lines 280-299) -/

/-- Go struct `WebhookConfig`: `URL` plus the inline catch-all `XXX` map
(modelled by its key list; the raw values are never inspected). -/
structure WebhookConfig where
  URL : String
  XXX : List String
deriving DecidableEq

/-- A YAML mapping for a webhook block: the `url` key if supplied, plus
the residual keys not matching any schema field. -/
structure WebhookBlock where
  URL : Option String
  residual : List String
deriving DecidableEq

/-- Go `(*WebhookConfig).UnmarshalYAML`: decode onto the zero value (no
defaults), then fail if `c.URL` is empty, then call
`checkOverflow(c.XXX, "slack config")` — the context string is literally
`"slack config"` in the source (line 298). -/
def WebhookConfig.unmarshalYAML (b : WebhookBlock) : Except String WebhookConfig :=
  let c : WebhookConfig := { URL := b.URL.getD "", XXX := b.residual }
  if c.URL = "" then Except.error "missing URL in webhook config"
  else
    match checkOverflow c.XXX "slack config" with
    | Except.error e => Except.error e
    | Except.ok _ => Except.ok c

/-- Feeding a decoded `WebhookConfig` back in as a fresh input block, every
field supplied. -/
def WebhookConfig.toBlock (c : WebhookConfig) : WebhookBlock :=
  { URL := some c.URL, residual := c.XXX }

/-! ## Hipchat variant (`HipchatConfig`, notifies.go lines 145-193) -/

/-- Go constant `HipchatFormatHTML` of the string type `HipchatFormat`. -/
def HipchatFormatHTML : String := "html"

/-- Go constant `HipchatFormatText`. -/
def HipchatFormatText : String := "text"

/-- Go struct `HipchatConfig`. The Go field `Prefix` is named `Pfx` here
because its Go name is unavailable as a Lean identifier. -/
structure HipchatConfig where
  AuthToken : String
  RoomID : Int
  Color : String
  Notify : Bool
  Pfx : String
  MessageFormat : String
  XXX : List String
deriving DecidableEq

/-- A YAML mapping for a hipchat block. -/
structure HipchatBlock where
  AuthToken : Option String
  RoomID : Option Int
  Color : Option String
  Notify : Option Bool
  Pfx : Option String
  MessageFormat : Option String
  residual : List String
deriving DecidableEq

/-- Go `DefaultHipchatConfig` (notifies.go lines 30-34): the `Color`
template and `MessageFormat = HipchatFormatHTML`; other fields zero. -/
def DefaultHipchatConfig : HipchatConfig :=
  { AuthToken := ""
    RoomID := 0
    Color := "\x7b\x7b if eq .Status \"firing\" \x7d\x7dpurple\x7b\x7b else \x7d\x7dgreen\x7b\x7b end \x7d\x7d"
    Notify := false
    Pfx := ""
    MessageFormat := HipchatFormatHTML
    XXX := [] }

/-- Go `(*HipchatConfig).UnmarshalYAML`: `*c = DefaultHipchatConfig`, decode
the supplied fields over it, then check `AuthToken` non-empty, then that
`MessageFormat` is `html` or `text`, then `checkOverflow`. -/
def HipchatConfig.unmarshalYAML (b : HipchatBlock) : Except String HipchatConfig :=
  let c : HipchatConfig :=
    { AuthToken := b.AuthToken.getD DefaultHipchatConfig.AuthToken
      RoomID := b.RoomID.getD DefaultHipchatConfig.RoomID
      Color := b.Color.getD DefaultHipchatConfig.Color
      Notify := b.Notify.getD DefaultHipchatConfig.Notify
      Pfx := b.Pfx.getD DefaultHipchatConfig.Pfx
      MessageFormat := b.MessageFormat.getD DefaultHipchatConfig.MessageFormat
      XXX := b.residual }
  if c.AuthToken = "" then Except.error "missing auth token in HipChat config"
  else if c.MessageFormat ≠ HipchatFormatHTML ∧ c.MessageFormat ≠ HipchatFormatText then
    Except.error ("invalid message format " ++ goQuote c.MessageFormat)
  else
    match checkOverflow c.XXX "hipchat config" with
    | Except.error e => Except.error e
    | Except.ok _ => Except.ok c

/-- Feeding a decoded `HipchatConfig` back in as a fresh input block. -/
def HipchatConfig.toBlock (c : HipchatConfig) : HipchatBlock :=
  { AuthToken := some c.AuthToken
    RoomID := some c.RoomID
    Color := some c.Color
    Notify := some c.Notify
    Pfx := some c.Pfx
    MessageFormat := some c.MessageFormat
    residual := c.XXX }

/-! ## Email variant (`EmailConfig`, notifies.go lines 98-143) -/

/-- Go struct `EmailConfig`. -/
structure EmailConfig where
  To : String
  From : String
  Smarthost : String
  Headers : List (String × String)
  HTML : String
  XXX : List String
deriving DecidableEq

/-- A YAML mapping for an email block. -/
structure EmailBlock where
  To : Option String
  From : Option String
  Smarthost : Option String
  Headers : Option (List (String × String))
  HTML : Option String
  residual : List String
deriving DecidableEq

/-- Go `DefaultEmailConfig` (notifies.go lines 22-25): only `HTML` is set. -/
def DefaultEmailConfig : EmailConfig :=
  { To := ""
    From := ""
    Smarthost := ""
    Headers := []
    HTML := "\x7b\x7b template \"email.default.html\" . \x7d\x7d"
    XXX := [] }

/-- Go `DefaultEmailSubject` (notifies.go line 28). -/
def DefaultEmailSubject : String := "\x7b\x7b template \"email.default.subject\" . \x7d\x7d"

/-- The duplicate-header error message produced at notifies.go line 127. -/
def dupHeaderMsg (n : String) : String :=
  "duplicate header " ++ goQuote n ++ " in email config"

/-- The loop at notifies.go lines 124-130: fold over the supplied headers,
title-casing each name; if the normalized name is already present in the
map built so far, fail with the duplicate-header error, otherwise insert. -/
def normalizeHeaders : List (String × String) → List (String × String) →
    Except String (List (String × String))
  | [], acc => Except.ok acc
  | (h, v) :: rest, acc =>
    if (mapLookup (stringsToTitle h) acc).isSome then
      Except.error (dupHeaderMsg (stringsToTitle h))
    else
      normalizeHeaders rest (acc ++ [(stringsToTitle h, v)])

/-- Go `(*EmailConfig).UnmarshalYAML`: `*c = DefaultEmailConfig`, decode the
supplied fields over it, check `To` non-empty, normalize the headers with
collision detection, insert the `Subject`/`To`/`From` entries when those
exact keys are absent, and finally `checkOverflow`. -/
def EmailConfig.unmarshalYAML (b : EmailBlock) : Except String EmailConfig :=
  let c : EmailConfig :=
    { To := b.To.getD DefaultEmailConfig.To
      From := b.From.getD DefaultEmailConfig.From
      Smarthost := b.Smarthost.getD DefaultEmailConfig.Smarthost
      Headers := b.Headers.getD DefaultEmailConfig.Headers
      HTML := b.HTML.getD DefaultEmailConfig.HTML
      XXX := b.residual }
  if c.To = "" then Except.error "missing to address in email config"
  else
    match normalizeHeaders c.Headers [] with
    | Except.error e => Except.error e
    | Except.ok nh =>
      let h1 := if (mapLookup "Subject" nh).isSome then nh
                else nh ++ [("Subject", DefaultEmailSubject)]
      let h2 := if (mapLookup "To" h1).isSome then h1 else h1 ++ [("To", c.To)]
      let h3 := if (mapLookup "From" h2).isSome then h2 else h2 ++ [("From", c.From)]
      match checkOverflow c.XXX "email config" with
      | Except.error e => Except.error e
      | Except.ok _ => Except.ok { c with Headers := h3 }

/-- Feeding a decoded `EmailConfig` back in as a fresh input block. -/
def EmailConfig.toBlock (c : EmailConfig) : EmailBlock :=
  { To := some c.To
    From := some c.From
    Smarthost := some c.Smarthost
    Headers := some c.Headers
    HTML := some c.HTML
    residual := c.XXX }

/-- Substring test on character lists: does the second list start with the
first? Used to state what an error message names. -/
def begWith : List Char → List Char → Bool
  | [], _ => true
  | _ :: _, [] => false
  | a :: as, b :: bs => a = b && begWith as bs

/-- Whether `pat` occurs as a contiguous run inside `s`. -/
def hasSub (pat : List Char) : List Char → Bool
  | [] => begWith pat []
  | b :: bs => begWith pat (b :: bs) || hasSub pat bs

/-- One step of the header-normalization loop body: the entry written into
`normalizedHeaders` for a supplied header pair. -/
def canonPair (p : String × String) : String × String := (stringsToTitle p.1, p.2)

/-- Whether a string contains a character in the title-cased range 97..122
(the characters `strings.ToTitle` rewrites). -/
def hasLowerChar (s : String) : Bool :=
  s.data.any (fun c => decide (97 ≤ c.toNat ∧ c.toNat ≤ 122))

/-! ## Character-level facts about `stringsToTitle` -/

/-- Reading back the code point of a valid `Char.ofNat`. -/
theorem char_toNat_ofNat_valid (n : Nat) (h : n.isValidChar) : (Char.ofNat n).toNat = n := by
  unfold Char.ofNat
  rw [dif_pos h]
  rfl

/-- The output of `titleChar` is never in the rewritten range 97..122. -/
theorem titleChar_not_lower (c : Char) :
    ¬ (97 ≤ (titleChar c).toNat ∧ (titleChar c).toNat ≤ 122) := by
  unfold titleChar
  by_cases h : 97 ≤ c.toNat ∧ c.toNat ≤ 122
  · rw [if_pos h]
    have hv : (c.toNat - 32).isValidChar := Or.inl (by omega)
    rw [char_toNat_ofNat_valid _ hv]
    omega
  · rw [if_neg h]
    exact h

/-- `titleChar` fixes characters outside the rewritten range. -/
theorem titleChar_fix (c : Char) (h : ¬ (97 ≤ c.toNat ∧ c.toNat ≤ 122)) : titleChar c = c := by
  unfold titleChar
  rw [if_neg h]

/-- A string containing a character in the range 97..122 is never an output
of `stringsToTitle`. -/
theorem ne_stringsToTitle_of_hasLowerChar (t : String) (ht : hasLowerChar t = true)
    (s : String) : stringsToTitle s ≠ t := by
  intro he
  unfold hasLowerChar at ht
  rw [List.any_eq_true] at ht
  obtain ⟨c, hc, hlow⟩ := ht
  rw [← he] at hc
  unfold stringsToTitle at hc
  simp only [List.mem_map] at hc
  obtain ⟨a, _, ha⟩ := hc
  rw [decide_eq_true_eq] at hlow
  rw [← ha] at hlow
  exact titleChar_not_lower a hlow

/-- A string fixed by no character rewrite is fixed by `stringsToTitle`;
contrapositively, a string moved by `stringsToTitle` contains a character
in the range 97..122. -/
theorem hasLowerChar_of_ne_stringsToTitle (s : String) (h : s ≠ stringsToTitle s) :
    hasLowerChar s = true := by
  by_contra hb
  apply h
  unfold stringsToTitle
  unfold hasLowerChar at hb
  rw [Bool.not_eq_true, List.any_eq_false] at hb
  have hfix : ∀ l : List Char, (∀ c ∈ l, titleChar c = c) → l.map titleChar = l := by
    intro l h
    induction l with
    | nil => rfl
    | cons a as ih =>
      simp only [List.map_cons, h a (List.mem_cons_self a as),
        ih (fun c hc => h c (List.mem_cons_of_mem a hc))]
  have : s.data.map titleChar = s.data := by
    apply hfix
    intro c hc
    have := hb c hc
    rw [Bool.not_eq_true, decide_eq_false_iff_not] at this
    exact titleChar_fix c this
  cases s with
  | mk data => simp only [this]

/-! ## Association-list (Go map) facts -/

/-- A lookup hits exactly when the key occurs in the key list. -/
theorem mapLookup_isSome_iff (k : String) (l : List (String × String)) :
    (mapLookup k l).isSome = true ↔ k ∈ l.map Prod.fst := by
  induction l with
  | nil => simp [mapLookup]
  | cons p rest ih =>
    simp only [mapLookup, List.map_cons, List.mem_cons]
    by_cases hk : p.1 = k
    · simp [hk]
    · rw [if_neg hk, ih]
      constructor
      · exact fun h => Or.inr h
      · intro h
        cases h with
        | inl h => exact absurd h.symm hk
        | inr h => exact h

/-- Absent keys look up to `none`. -/
theorem mapLookup_eq_none (k : String) (l : List (String × String))
    (h : k ∉ l.map Prod.fst) : mapLookup k l = none := by
  cases hl : mapLookup k l with
  | none => rfl
  | some v =>
    exfalso
    exact h ((mapLookup_isSome_iff k l).mp (by rw [hl]; rfl))

/-- Lookups stay in the left part of an append when they hit. -/
theorem mapLookup_append_left (k : String) (l₁ l₂ : List (String × String)) (v : String)
    (h : mapLookup k l₁ = some v) : mapLookup k (l₁ ++ l₂) = some v := by
  induction l₁ with
  | nil => simp [mapLookup] at h
  | cons p rest ih =>
    simp only [mapLookup] at h
    simp only [List.cons_append, mapLookup]
    by_cases hk : p.1 = k
    · rw [if_pos hk] at h ⊢
      exact h
    · rw [if_neg hk] at h ⊢
      exact ih h

/-- Lookups skip a left part that misses the key. -/
theorem mapLookup_append_right (k : String) (l₁ l₂ : List (String × String))
    (h : k ∉ l₁.map Prod.fst) : mapLookup k (l₁ ++ l₂) = mapLookup k l₂ := by
  induction l₁ with
  | nil => rfl
  | cons p rest ih =>
    rw [List.map_cons, List.mem_cons] at h
    push_neg at h
    rw [List.cons_append]
    simp only [mapLookup]
    rw [if_neg (fun hx => h.1 hx.symm)]
    exact ih h.2

/-- With distinct keys, membership determines the lookup. -/
theorem mapLookup_of_mem_nodup (k v : String) (l : List (String × String))
    (hn : (l.map Prod.fst).Nodup) (hm : (k, v) ∈ l) : mapLookup k l = some v := by
  induction l with
  | nil => cases hm
  | cons p rest ih =>
    rw [List.map_cons, List.nodup_cons] at hn
    rw [List.mem_cons] at hm
    simp only [mapLookup]
    cases hm with
    | inl h =>
      rw [← h]
      rw [if_pos rfl]
    | inr h =>
      by_cases hk : p.1 = k
      · exfalso
        apply hn.1
        rw [hk]
        exact List.mem_map_of_mem Prod.fst h
      · rw [if_neg hk]
        exact ih hn.2 h

/-! ## Facts about the header-normalization loop -/

/-- A successful normalization returns the accumulator followed by the
title-cased image of the input, in input order. -/
theorem normalizeHeaders_ok_eq (hs : List (String × String)) :
    ∀ acc m, normalizeHeaders hs acc = Except.ok m → m = acc ++ hs.map canonPair := by
  induction hs with
  | nil =>
    intro acc m h
    cases h
    simp
  | cons p rest ih =>
    intro acc m h
    obtain ⟨ph, pv⟩ := p
    unfold normalizeHeaders at h
    by_cases hg : (mapLookup (stringsToTitle ph) acc).isSome
    · rw [if_pos hg] at h
      cases h
    · rw [if_neg hg] at h
      have := ih (acc ++ [(stringsToTitle ph, pv)]) m h
      rw [this]
      simp [canonPair]

/-- A successful normalization has pairwise-distinct normalized keys,
given that the accumulator it started from does. -/
theorem normalizeHeaders_ok_nodup (hs : List (String × String)) :
    ∀ acc m, (acc.map Prod.fst).Nodup → normalizeHeaders hs acc = Except.ok m →
      (m.map Prod.fst).Nodup := by
  induction hs with
  | nil =>
    intro acc m hn h
    cases h
    exact hn
  | cons p rest ih =>
    intro acc m hn h
    obtain ⟨ph, pv⟩ := p
    unfold normalizeHeaders at h
    by_cases hg : (mapLookup (stringsToTitle ph) acc).isSome
    · rw [if_pos hg] at h
      cases h
    · rw [if_neg hg] at h
      apply ih (acc ++ [(stringsToTitle ph, pv)]) m _ h
      rw [List.map_append, List.nodup_append]
      refine ⟨hn, List.nodup_singleton _, ?_⟩
      intro a ha hb
      simp only [List.map_cons, List.map_nil, List.mem_singleton] at hb
      rw [hb] at ha
      exact hg ((mapLookup_isSome_iff _ _).mpr ha)

/-- A normalization started on a key-distinct future fails nowhere: the
success case of the collision check. -/
theorem normalizeHeaders_ok_of_nodup (hs : List (String × String)) :
    ∀ acc, ((acc.map Prod.fst) ++ hs.map (fun p => stringsToTitle p.1)).Nodup →
      normalizeHeaders hs acc = Except.ok (acc ++ hs.map canonPair) := by
  induction hs with
  | nil =>
    intro acc _
    simp [normalizeHeaders]
  | cons p rest ih =>
    intro acc hn
    obtain ⟨ph, pv⟩ := p
    simp only [List.map_cons] at hn
    have hsplit : (acc.map Prod.fst ++ [stringsToTitle ph] ++
        rest.map (fun p => stringsToTitle p.1)).Nodup := by
      rw [List.append_assoc]
      simpa using hn
    have hnot : stringsToTitle ph ∉ acc.map Prod.fst := by
      intro hmem
      rw [List.append_assoc] at hsplit
      rw [List.nodup_append] at hsplit
      exact hsplit.2.2 hmem (by simp)
    unfold normalizeHeaders
    rw [if_neg (by rw [mapLookup_isSome_iff]; simpa using hnot)]
    have := ih (acc ++ [(stringsToTitle ph, pv)]) (by simpa using hsplit)
    rw [this]
    simp [canonPair]

/-- A normalization whose full key multiset has a repeat fails with the
duplicate-header error naming a repeated normalized name. -/
theorem normalizeHeaders_err_of_dup (hs : List (String × String)) :
    ∀ acc, (acc.map Prod.fst).Nodup →
      ¬ ((acc.map Prod.fst) ++ hs.map (fun p => stringsToTitle p.1)).Nodup →
      ∃ n, normalizeHeaders hs acc = Except.error (dupHeaderMsg n) ∧
        2 ≤ ((acc.map Prod.fst) ++ hs.map (fun p => stringsToTitle p.1)).count n := by
  induction hs with
  | nil =>
    intro acc hn hd
    exfalso
    exact hd (by simpa using hn)
  | cons p rest ih =>
    intro acc hn hd
    obtain ⟨ph, pv⟩ := p
    by_cases hg : (mapLookup (stringsToTitle ph) acc).isSome
    · refine ⟨stringsToTitle ph, ?_, ?_⟩
      · unfold normalizeHeaders
        rw [if_pos hg]
      · have hmem : stringsToTitle ph ∈ acc.map Prod.fst :=
          (mapLookup_isSome_iff _ _).mp hg
        rw [List.count_append]
        have h1 : 1 ≤ (acc.map Prod.fst).count (stringsToTitle ph) :=
          List.one_le_count_iff.mpr hmem
        have h2 : 1 ≤ ((((ph, pv) :: rest).map fun p => stringsToTitle p.1).count
            (stringsToTitle ph)) := by
          apply List.one_le_count_iff.mpr
          simp
        omega
    · have hnotmem : stringsToTitle ph ∉ acc.map Prod.fst := by
        intro hmem
        exact hg ((mapLookup_isSome_iff _ _).mpr hmem)
      have hrec := ih (acc ++ [(stringsToTitle ph, pv)])
        (by
          rw [List.map_append, List.nodup_append]
          refine ⟨hn, List.nodup_singleton _, ?_⟩
          intro a ha hb
          simp only [List.map_cons, List.map_nil, List.mem_singleton] at hb
          rw [hb] at ha
          exact hnotmem ha)
        (by
          intro hcon
          apply hd
          simp only [List.map_cons]
          simpa [List.append_assoc] using hcon)
      obtain ⟨n, hres, hcount⟩ := hrec
      refine ⟨n, ?_, ?_⟩
      · unfold normalizeHeaders
        rw [if_neg hg]
        exact hres
      · simp only [List.map_cons]
        simpa [List.append_assoc] using hcount

/-! ## Claim theorems -/

/-- Claim C6 (confirmed): decoding the Email block
`{to: "a@b.com", from: "c@d.com"}` with no headers and no unknown keys
succeeds, and the resulting headers map contains `To = "a@b.com"`,
`From = "c@d.com"` and `Subject` equal to the module default subject
template. -/
theorem email_basic_block_decodes_with_default_headers :
    EmailConfig.unmarshalYAML
      { To := some "a@b.com", From := some "c@d.com", Smarthost := none,
        Headers := none, HTML := none, residual := [] } =
    Except.ok
      { To := "a@b.com", From := "c@d.com", Smarthost := "",
        Headers := [("Subject", DefaultEmailSubject), ("To", "a@b.com"), ("From", "c@d.com")],
        HTML := DefaultEmailConfig.HTML, XXX := [] } := by
  decide

/-- Claim C2 (code bug): `{url: ""}` fails with the missing-URL error as
claimed, and `{url: "http://x", foo: 1}` fails with the
unrecognized-fields error naming `foo` — but the message identifies the
*slack* variant, not the webhook variant, because
`WebhookConfig.UnmarshalYAML` passes the context string `"slack config"`
to `checkOverflow` (notifies.go line 298). -/
theorem webhook_overflow_error_names_slack_config :
    WebhookConfig.unmarshalYAML { URL := some "", residual := [] } =
      Except.error "missing URL in webhook config" ∧
    WebhookConfig.unmarshalYAML { URL := some "http://x", residual := ["foo"] } =
      Except.error "unrecognized field(s) in slack config: foo" ∧
    hasSub "foo".data "unrecognized field(s) in slack config: foo".data = true ∧
    hasSub "slack".data "unrecognized field(s) in slack config: foo".data = true ∧
    hasSub "webhook".data "unrecognized field(s) in slack config: foo".data = false := by
  refine ⟨by decide, by decide, by decide, by decide, by decide⟩

/-- Claim C4 (code bug): an Email block that supplies a `Subject` header
still receives the module default subject. The supplied name is
title-cased to `SUBJECT`, so the case-sensitive guard
`if _, ok := c.Headers["Subject"]` (notifies.go line 132) never finds it
and the default is inserted next to the operator's value. -/
theorem email_supplied_subject_does_not_suppress_default :
    EmailConfig.unmarshalYAML
      { To := some "a@b.com", From := some "c@d.com", Smarthost := none,
        Headers := some [("Subject", "custom")], HTML := none, residual := [] } =
    Except.ok
      { To := "a@b.com", From := "c@d.com", Smarthost := "",
        Headers := [("SUBJECT", "custom"), ("Subject", DefaultEmailSubject),
                    ("To", "a@b.com"), ("From", "c@d.com")],
        HTML := DefaultEmailConfig.HTML, XXX := [] } ∧
    stringsToTitle "Subject" = "SUBJECT" := by
  refine ⟨by decide, by decide⟩

/-- Claim C1 (counterexample): a Webhook block with a residual key `foo`
and a missing `url` is rejected with the missing-URL error, not with an
unrecognized-fields error (the reported message does not even mention
`foo`): the residual-keys check does not take precedence. -/
theorem webhook_missing_url_beats_residual_check :
    WebhookConfig.unmarshalYAML { URL := none, residual := ["foo"] } =
      Except.error "missing URL in webhook config" ∧
    hasSub "foo".data "missing URL in webhook config".data = false := by
  refine ⟨by decide, by decide⟩

/-- Claim C3 (counterexample): re-decoding the output of the successful
decode of `{to: "a@b.com", from: "c@d.com"}` does not reproduce it — the
injected `Subject`/`To`/`From` keys are title-cased to upper case and the
defaults are inserted a second time, doubling the headers map. -/
theorem email_redecode_not_idempotent :
    EmailConfig.unmarshalYAML
      { To := some "a@b.com", From := some "c@d.com", Smarthost := none,
        Headers := none, HTML := none, residual := [] } =
    Except.ok
      { To := "a@b.com", From := "c@d.com", Smarthost := "",
        Headers := [("Subject", DefaultEmailSubject), ("To", "a@b.com"), ("From", "c@d.com")],
        HTML := DefaultEmailConfig.HTML, XXX := [] } ∧
    EmailConfig.unmarshalYAML
      (EmailConfig.toBlock
        { To := "a@b.com", From := "c@d.com", Smarthost := "",
          Headers := [("Subject", DefaultEmailSubject), ("To", "a@b.com"), ("From", "c@d.com")],
          HTML := DefaultEmailConfig.HTML, XXX := [] }) =
    Except.ok
      { To := "a@b.com", From := "c@d.com", Smarthost := "",
        Headers := [("SUBJECT", DefaultEmailSubject), ("TO", "a@b.com"), ("FROM", "c@d.com"),
                    ("Subject", DefaultEmailSubject), ("To", "a@b.com"), ("From", "c@d.com")],
        HTML := DefaultEmailConfig.HTML, XXX := [] } ∧
    ([("SUBJECT", DefaultEmailSubject), ("TO", "a@b.com"), ("FROM", "c@d.com"),
      ("Subject", DefaultEmailSubject), ("To", "a@b.com"), ("From", "c@d.com")] :
        List (String × String)) ≠
    [("Subject", DefaultEmailSubject), ("To", "a@b.com"), ("From", "c@d.com")] := by
  refine ⟨by decide, by decide, by decide⟩

/-- Claim C7 (counterexample): a Room-Notification block with
`message_format: "markdown"` fails with the invalid-message-format error,
which names the offending value but does not name the accepted set — the
message contains neither `html` nor `text`. -/
theorem hipchat_invalid_format_error_lacks_accepted_set :
    HipchatConfig.unmarshalYAML
      { AuthToken := some "t", RoomID := none, Color := none, Notify := none,
        Pfx := none, MessageFormat := some "markdown", residual := [] } =
      Except.error "invalid message format \"markdown\"" ∧
    hasSub "markdown".data "invalid message format \"markdown\"".data = true ∧
    hasSub "html".data "invalid message format \"markdown\"".data = false ∧
    hasSub "text".data "invalid message format \"markdown\"".data = false := by
  refine ⟨by decide, by decide, by decide, by decide⟩

/-- Claim C10 (counterexample): after a successful Email decode, an
operator-supplied header name can reappear in the result under its
original mixed-case spelling: supplying a `From` header leaves the key
`From` present in the output (bound to the derived from-address by the
default injection) even though `From` is mixed-case and distinct from its
normalized form `FROM`. -/
theorem email_supplied_from_key_reappears_mixed_case :
    EmailConfig.unmarshalYAML
      { To := some "a@b.com", From := some "c@d.com", Smarthost := none,
        Headers := some [("From", "x@y")], HTML := none, residual := [] } =
    Except.ok
      { To := "a@b.com", From := "c@d.com", Smarthost := "",
        Headers := [("FROM", "x@y"), ("Subject", DefaultEmailSubject),
                    ("To", "a@b.com"), ("From", "c@d.com")],
        HTML := DefaultEmailConfig.HTML, XXX := [] } ∧
    "From" ≠ stringsToTitle "From" ∧
    mapLookup "From" [("FROM", "x@y"), ("Subject", DefaultEmailSubject),
                      ("To", "a@b.com"), ("From", "c@d.com")] = some "c@d.com" := by
  refine ⟨by decide, by decide, by decide⟩

/-! ## Inversion lemmas: characterizing successful decodes -/

theorem checkOverflow_nil (ctx : String) : checkOverflow [] ctx = Except.ok () := rfl

theorem checkOverflow_cons (a : String) (as : List String) (ctx : String) :
    checkOverflow (a :: as) ctx =
      Except.error ("unrecognized field(s) in " ++ ctx ++ ": " ++
        String.intercalate ", " (a :: as)) := rfl

theorem webhook_ok_iff (b : WebhookBlock) (c : WebhookConfig) :
    WebhookConfig.unmarshalYAML b = Except.ok c ↔
      b.URL.getD "" ≠ "" ∧ b.residual = [] ∧ c = { URL := b.URL.getD "", XXX := [] } := by
  unfold WebhookConfig.unmarshalYAML
  by_cases hu : b.URL.getD "" = ""
  · rw [if_pos hu]
    simp [hu]
  · rw [if_neg hu]
    cases hres : b.residual with
    | nil =>
      rw [checkOverflow_nil]
      constructor
      · intro h
        cases h
        exact ⟨hu, rfl, rfl⟩
      · intro h
        rw [h.2.2]
    | cons a as =>
      rw [checkOverflow_cons]
      constructor
      · intro h
        cases h
      · intro h
        cases h.2.1

theorem hipchat_ok_iff (b : HipchatBlock) (c : HipchatConfig) :
    HipchatConfig.unmarshalYAML b = Except.ok c ↔
      b.AuthToken.getD "" ≠ "" ∧
      (b.MessageFormat.getD HipchatFormatHTML = HipchatFormatHTML ∨
        b.MessageFormat.getD HipchatFormatHTML = HipchatFormatText) ∧
      b.residual = [] ∧
      c = { AuthToken := b.AuthToken.getD ""
            RoomID := b.RoomID.getD 0
            Color := b.Color.getD DefaultHipchatConfig.Color
            Notify := b.Notify.getD false
            Pfx := b.Pfx.getD ""
            MessageFormat := b.MessageFormat.getD HipchatFormatHTML
            XXX := [] } := by
  unfold HipchatConfig.unmarshalYAML
  by_cases ha : b.AuthToken.getD DefaultHipchatConfig.AuthToken = ""
  · rw [if_pos ha]
    have ha2 : b.AuthToken.getD "" = "" := ha
    simp [ha2]
  · rw [if_neg ha]
    have ha2 : b.AuthToken.getD "" ≠ "" := ha
    by_cases hf : b.MessageFormat.getD DefaultHipchatConfig.MessageFormat ≠ HipchatFormatHTML ∧
        b.MessageFormat.getD DefaultHipchatConfig.MessageFormat ≠ HipchatFormatText
    · rw [if_pos hf]
      have hf2 : ¬ (b.MessageFormat.getD HipchatFormatHTML = HipchatFormatHTML ∨
          b.MessageFormat.getD HipchatFormatHTML = HipchatFormatText) := by
        intro hor
        cases hor with
        | inl h => exact hf.1 h
        | inr h => exact hf.2 h
      simp [hf2]
    · rw [if_neg hf]
      rw [Classical.not_and_iff_or_not_not, not_not, not_not] at hf
      cases hres : b.residual with
      | nil =>
        rw [checkOverflow_nil]
        constructor
        · intro h
          cases h
          exact ⟨ha2, hf, rfl, rfl⟩
        · intro h
          obtain ⟨_, _, _, hc⟩ := h
          subst hc
          rfl
      | cons a as =>
        rw [checkOverflow_cons]
        constructor
        · intro h
          cases h
        · intro h
          cases h.2.2.1

theorem mapLookup_canon_none (t : String) (ht : hasLowerChar t = true)
    (hs : List (String × String)) : mapLookup t (hs.map canonPair) = none := by
  apply mapLookup_eq_none
  intro hmem
  rw [List.map_map, List.mem_map] at hmem
  obtain ⟨p, _, hp⟩ := hmem
  exact ne_stringsToTitle_of_hasLowerChar t ht p.1 hp

theorem email_ok_inv (b : EmailBlock) (c : EmailConfig)
    (h : EmailConfig.unmarshalYAML b = Except.ok c) :
    b.To.getD "" ≠ "" ∧ b.residual = [] ∧
    normalizeHeaders (b.Headers.getD []) [] =
      Except.ok ((b.Headers.getD []).map canonPair) ∧
    c.To = b.To.getD "" ∧ c.From = b.From.getD "" ∧
    c.Headers = (b.Headers.getD []).map canonPair ++
      [("Subject", DefaultEmailSubject), ("To", b.To.getD ""), ("From", b.From.getD "")] ∧
    (((b.Headers.getD []).map canonPair).map Prod.fst).Nodup := by
  unfold EmailConfig.unmarshalYAML at h
  by_cases ht : b.To.getD DefaultEmailConfig.To = ""
  · rw [if_pos ht] at h
    cases h
  · rw [if_neg ht] at h
    cases hnorm : normalizeHeaders (b.Headers.getD DefaultEmailConfig.Headers) [] with
    | error e =>
      rw [hnorm] at h
      cases h
    | ok nh =>
      rw [hnorm] at h
      have hnheq : nh = (b.Headers.getD DefaultEmailConfig.Headers).map canonPair := by
        have := normalizeHeaders_ok_eq _ _ _ hnorm
        simpa using this
      subst hnheq
      have hhs : b.Headers.getD DefaultEmailConfig.Headers = b.Headers.getD [] := rfl
      have hS : mapLookup "Subject" ((b.Headers.getD DefaultEmailConfig.Headers).map canonPair) =
          none := mapLookup_canon_none _ (by decide) _
      have hT : mapLookup "To" ((b.Headers.getD DefaultEmailConfig.Headers).map canonPair ++
          [("Subject", DefaultEmailSubject)]) = none := by
        rw [mapLookup_append_right]
        · simp [mapLookup]
        · intro hmem
          rw [List.map_map, List.mem_map] at hmem
          obtain ⟨p, _, hp⟩ := hmem
          exact ne_stringsToTitle_of_hasLowerChar "To" (by decide) p.1 hp
      have hF : mapLookup "From" ((b.Headers.getD DefaultEmailConfig.Headers).map canonPair ++
          [("Subject", DefaultEmailSubject)] ++ [("To", b.To.getD DefaultEmailConfig.To)]) = none := by
        rw [List.append_assoc, mapLookup_append_right]
        · simp [mapLookup]
        · intro hmem
          rw [List.map_map, List.mem_map] at hmem
          obtain ⟨p, _, hp⟩ := hmem
          exact ne_stringsToTitle_of_hasLowerChar "From" (by decide) p.1 hp
      dsimp only at h
      rw [hS] at h
      simp only [Option.isSome_none, Bool.false_eq_true, if_false] at h
      rw [hT] at h
      simp only [Option.isSome_none, Bool.false_eq_true, if_false] at h
      rw [hF] at h
      simp only [Option.isSome_none, Bool.false_eq_true, if_false] at h
      cases hres : b.residual with
      | nil =>
        rw [hres, checkOverflow_nil] at h
        cases h
        refine ⟨ht, rfl, hnorm, rfl, rfl, by simp [DefaultEmailConfig], ?_⟩
        exact normalizeHeaders_ok_nodup _ _ _ (by simp) hnorm
      | cons a as =>
        rw [hres, checkOverflow_cons] at h
        cases h

/-- Claim C8 (confirmed): within one variant instance the required-field
check runs first and the decode stops there with that single error — a
Hipchat block with an empty auth token reports only the missing auth
token whatever its message format or residual keys, and an Email block
with an empty `to` fails before header normalization, so duplicate
headers in such a block are never reported. -/
theorem required_field_checks_run_first :
    (∀ b : HipchatBlock, b.AuthToken.getD "" = "" →
      HipchatConfig.unmarshalYAML b = Except.error "missing auth token in HipChat config") ∧
    (∀ b : EmailBlock, b.To.getD "" = "" →
      EmailConfig.unmarshalYAML b = Except.error "missing to address in email config") := by
  constructor
  · intro b h
    unfold HipchatConfig.unmarshalYAML
    dsimp only
    rw [if_pos (show b.AuthToken.getD DefaultHipchatConfig.AuthToken = "" from h)]
  · intro b h
    unfold EmailConfig.unmarshalYAML
    dsimp only
    rw [if_pos (show b.To.getD DefaultEmailConfig.To = "" from h)]

/-- Witness for `required_field_checks_run_first`: a Hipchat block with an
empty auth token and an out-of-domain message format reports only the
missing auth token; an Email block without `to` and with duplicate
headers reports only the missing to address. -/
theorem required_field_checks_run_first_witness :
    HipchatConfig.unmarshalYAML
      { AuthToken := some "", RoomID := none, Color := none, Notify := none,
        Pfx := none, MessageFormat := some "bogus", residual := [] } =
      Except.error "missing auth token in HipChat config" ∧
    EmailConfig.unmarshalYAML
      { To := none, From := none, Smarthost := none,
        Headers := some [("Content-Type", "x"), ("content-type", "y")],
        HTML := none, residual := [] } =
      Except.error "missing to address in email config" :=
  ⟨required_field_checks_run_first.1
      { AuthToken := some "", RoomID := none, Color := none, Notify := none,
        Pfx := none, MessageFormat := some "bogus", residual := [] } (by decide),
   required_field_checks_run_first.2
      { To := none, From := none, Smarthost := none,
        Headers := some [("Content-Type", "x"), ("content-type", "y")],
        HTML := none, residual := [] } (by decide)⟩

/-- Claim C1 (amended): for every modelled variant, a block whose decode
leaves a non-empty residual-keys set *and passes the variant-specific
checks* fails with the unrecognized-fields error naming every residual
key; the check runs after, not before, the variant-specific checks. -/
theorem residual_keys_error_after_variant_checks :
    (∀ b : WebhookBlock, b.URL.getD "" ≠ "" → b.residual ≠ [] →
      WebhookConfig.unmarshalYAML b =
        Except.error ("unrecognized field(s) in slack config: " ++
          String.intercalate ", " b.residual)) ∧
    (∀ b : HipchatBlock, b.AuthToken.getD "" ≠ "" →
      (b.MessageFormat.getD HipchatFormatHTML = HipchatFormatHTML ∨
        b.MessageFormat.getD HipchatFormatHTML = HipchatFormatText) →
      b.residual ≠ [] →
      HipchatConfig.unmarshalYAML b =
        Except.error ("unrecognized field(s) in hipchat config: " ++
          String.intercalate ", " b.residual)) ∧
    (∀ b : EmailBlock, b.To.getD "" ≠ "" →
      (∃ m, normalizeHeaders (b.Headers.getD []) [] = Except.ok m) →
      b.residual ≠ [] →
      EmailConfig.unmarshalYAML b =
        Except.error ("unrecognized field(s) in email config: " ++
          String.intercalate ", " b.residual)) := by
  refine ⟨?_, ?_, ?_⟩
  · intro b hu hr
    unfold WebhookConfig.unmarshalYAML
    dsimp only
    rw [if_neg (show ¬ b.URL.getD "" = "" from hu)]
    cases hres : b.residual with
    | nil => exact absurd hres hr
    | cons a as => simp [checkOverflow]
  · intro b ha hf hr
    unfold HipchatConfig.unmarshalYAML
    dsimp only
    rw [if_neg (show ¬ b.AuthToken.getD DefaultHipchatConfig.AuthToken = "" from ha)]
    rw [if_neg (show ¬ (b.MessageFormat.getD DefaultHipchatConfig.MessageFormat ≠ HipchatFormatHTML ∧
        b.MessageFormat.getD DefaultHipchatConfig.MessageFormat ≠ HipchatFormatText) from by
      intro hcon
      cases hf with
      | inl h => exact hcon.1 h
      | inr h => exact hcon.2 h)]
    cases hres : b.residual with
    | nil => exact absurd hres hr
    | cons a as => simp [checkOverflow]
  · intro b ht hnormex hr
    obtain ⟨m, hm⟩ := hnormex
    unfold EmailConfig.unmarshalYAML
    dsimp only
    rw [if_neg (show ¬ b.To.getD DefaultEmailConfig.To = "" from ht)]
    rw [show normalizeHeaders (b.Headers.getD DefaultEmailConfig.Headers) [] = Except.ok m from hm]
    dsimp only
    cases hres : b.residual with
    | nil => exact absurd hres hr
    | cons a as => simp [checkOverflow]

/-- Witness for `residual_keys_error_after_variant_checks` at concrete
blocks of each variant carrying the residual key `foo`. -/
theorem residual_keys_error_after_variant_checks_witness :
    WebhookConfig.unmarshalYAML { URL := some "http://x", residual := ["foo"] } =
      Except.error "unrecognized field(s) in slack config: foo" ∧
    HipchatConfig.unmarshalYAML
      { AuthToken := some "t", RoomID := none, Color := none, Notify := none,
        Pfx := none, MessageFormat := none, residual := ["foo"] } =
      Except.error "unrecognized field(s) in hipchat config: foo" ∧
    EmailConfig.unmarshalYAML
      { To := some "a@b.com", From := none, Smarthost := none, Headers := none,
        HTML := none, residual := ["foo"] } =
      Except.error "unrecognized field(s) in email config: foo" := by
  refine ⟨?_, ?_, ?_⟩
  · have := residual_keys_error_after_variant_checks.1
      { URL := some "http://x", residual := ["foo"] } (by decide) (by decide)
    simpa using this
  · have := residual_keys_error_after_variant_checks.2.1
      { AuthToken := some "t", RoomID := none, Color := none, Notify := none,
        Pfx := none, MessageFormat := none, residual := ["foo"] }
      (by decide) (Or.inl (by decide)) (by decide)
    simpa using this
  · have := residual_keys_error_after_variant_checks.2.2
      { To := some "a@b.com", From := none, Smarthost := none, Headers := none,
        HTML := none, residual := ["foo"] }
      (by decide) ⟨[], by decide⟩ (by decide)
    simpa using this

/-- Claim C7 (amended): a supplied `message_format` outside {html, text}
fails the domain check with an invalid-message-format error naming the
offending value (the accepted set is not part of the message), and an
omitted `message_format` defaults to `html`, so an otherwise-valid block
passes the domain check. -/
theorem hipchat_message_format_check_and_default :
    (∀ (b : HipchatBlock) (v : String), b.MessageFormat = some v →
      v ≠ HipchatFormatHTML → v ≠ HipchatFormatText → b.AuthToken.getD "" ≠ "" →
      HipchatConfig.unmarshalYAML b = Except.error ("invalid message format " ++ goQuote v)) ∧
    (∀ b : HipchatBlock, b.MessageFormat = none → b.AuthToken.getD "" ≠ "" →
      b.residual = [] →
      HipchatConfig.unmarshalYAML b =
        Except.ok
          { AuthToken := b.AuthToken.getD "", RoomID := b.RoomID.getD 0,
            Color := b.Color.getD DefaultHipchatConfig.Color,
            Notify := b.Notify.getD false, Pfx := b.Pfx.getD "",
            MessageFormat := HipchatFormatHTML, XXX := [] }) := by
  constructor
  · intro b v hv hnh hnt ha
    unfold HipchatConfig.unmarshalYAML
    dsimp only
    rw [if_neg (show ¬ b.AuthToken.getD DefaultHipchatConfig.AuthToken = "" from ha)]
    rw [if_pos (show b.MessageFormat.getD DefaultHipchatConfig.MessageFormat ≠ HipchatFormatHTML ∧
        b.MessageFormat.getD DefaultHipchatConfig.MessageFormat ≠ HipchatFormatText from by
      rw [hv]
      exact ⟨hnh, hnt⟩)]
    rw [hv]
    rfl
  · intro b hv ha hr
    rw [hipchat_ok_iff]
    refine ⟨ha, Or.inl (by rw [hv]; rfl), hr, ?_⟩
    rw [hv]
    rfl

/-- Witness for `hipchat_message_format_check_and_default` at the format
`markdown` and at an omitted format. -/
theorem hipchat_message_format_check_and_default_witness :
    HipchatConfig.unmarshalYAML
      { AuthToken := some "t", RoomID := none, Color := none, Notify := none,
        Pfx := none, MessageFormat := some "markdown", residual := [] } =
      Except.error ("invalid message format " ++ goQuote "markdown") ∧
    HipchatConfig.unmarshalYAML
      { AuthToken := some "t", RoomID := none, Color := none, Notify := none,
        Pfx := none, MessageFormat := none, residual := [] } =
      Except.ok
        { AuthToken := "t", RoomID := 0, Color := DefaultHipchatConfig.Color,
          Notify := false, Pfx := "", MessageFormat := HipchatFormatHTML, XXX := [] } := by
  constructor
  · exact hipchat_message_format_check_and_default.1
      { AuthToken := some "t", RoomID := none, Color := none, Notify := none,
        Pfx := none, MessageFormat := some "markdown", residual := [] }
      "markdown" rfl (by decide) (by decide) (by decide)
  · have := hipchat_message_format_check_and_default.2
      { AuthToken := some "t", RoomID := none, Color := none, Notify := none,
        Pfx := none, MessageFormat := none, residual := [] } rfl (by decide) rfl
    simpa using this

/-- Claim C3 (amended): re-decoding the output of a successful decode
reproduces it exactly for the Webhook and Hipchat variants (no new
residual keys, no error); for Email idempotence fails, because the
injected `Subject`/`To`/`From` keys are re-normalized to upper case and
fresh defaults are inserted, so the headers map differs. -/
theorem redecode_idempotent_except_email :
    (∀ (b : WebhookBlock) (c : WebhookConfig),
      WebhookConfig.unmarshalYAML b = Except.ok c →
      WebhookConfig.unmarshalYAML c.toBlock = Except.ok c) ∧
    (∀ (b : HipchatBlock) (c : HipchatConfig),
      HipchatConfig.unmarshalYAML b = Except.ok c →
      HipchatConfig.unmarshalYAML c.toBlock = Except.ok c) ∧
    (EmailConfig.unmarshalYAML
        { To := some "a@b.com", From := some "c@d.com", Smarthost := none,
          Headers := none, HTML := none, residual := [] } =
      Except.ok
        { To := "a@b.com", From := "c@d.com", Smarthost := "",
          Headers := [("Subject", DefaultEmailSubject), ("To", "a@b.com"), ("From", "c@d.com")],
          HTML := DefaultEmailConfig.HTML, XXX := [] } ∧
      EmailConfig.unmarshalYAML
        (EmailConfig.toBlock
          { To := "a@b.com", From := "c@d.com", Smarthost := "",
            Headers := [("Subject", DefaultEmailSubject), ("To", "a@b.com"), ("From", "c@d.com")],
            HTML := DefaultEmailConfig.HTML, XXX := [] }) ≠
      Except.ok
        { To := "a@b.com", From := "c@d.com", Smarthost := "",
          Headers := [("Subject", DefaultEmailSubject), ("To", "a@b.com"), ("From", "c@d.com")],
          HTML := DefaultEmailConfig.HTML, XXX := [] }) := by
  refine ⟨?_, ?_, by decide, by decide⟩
  · intro b c h
    rw [webhook_ok_iff] at h
    obtain ⟨hu, _, hc⟩ := h
    rw [webhook_ok_iff]
    subst hc
    exact ⟨hu, rfl, rfl⟩
  · intro b c h
    rw [hipchat_ok_iff] at h
    obtain ⟨ha, hf, _, hc⟩ := h
    rw [hipchat_ok_iff]
    subst hc
    exact ⟨ha, hf, rfl, rfl⟩

/-- Witness for `redecode_idempotent_except_email`: the decoded Webhook
and Hipchat configurations from concrete valid blocks survive a second
decode unchanged. -/
theorem redecode_idempotent_except_email_witness :
    WebhookConfig.unmarshalYAML (WebhookConfig.toBlock { URL := "http://x", XXX := [] }) =
      Except.ok { URL := "http://x", XXX := [] } ∧
    HipchatConfig.unmarshalYAML
      (HipchatConfig.toBlock
        { AuthToken := "t", RoomID := 0, Color := DefaultHipchatConfig.Color,
          Notify := false, Pfx := "", MessageFormat := HipchatFormatHTML, XXX := [] }) =
      Except.ok
        { AuthToken := "t", RoomID := 0, Color := DefaultHipchatConfig.Color,
          Notify := false, Pfx := "", MessageFormat := HipchatFormatHTML, XXX := [] } := by
  constructor
  · exact redecode_idempotent_except_email.1
      { URL := some "http://x", residual := [] } { URL := "http://x", XXX := [] } (by decide)
  · exact redecode_idempotent_except_email.2.1
      { AuthToken := some "t", RoomID := none, Color := none, Notify := none,
        Pfx := none, MessageFormat := none, residual := [] }
      { AuthToken := "t", RoomID := 0, Color := DefaultHipchatConfig.Color,
        Notify := false, Pfx := "", MessageFormat := HipchatFormatHTML, XXX := [] }
      (by decide)

/-- Construction dual of `email_ok_inv`: an email block with a non-empty
resolved `to`, collision-free normalized header names and no residual key
decodes successfully to the overlaid, normalized, default-injected
configuration. -/
theorem email_ok_of (b : EmailBlock) (ht : b.To.getD "" ≠ "")
    (hn : ((b.Headers.getD []).map (fun p => stringsToTitle p.1)).Nodup)
    (hr : b.residual = []) :
    EmailConfig.unmarshalYAML b = Except.ok
      { To := b.To.getD "", From := b.From.getD "", Smarthost := b.Smarthost.getD "",
        Headers := (b.Headers.getD []).map canonPair ++
          [("Subject", DefaultEmailSubject), ("To", b.To.getD ""), ("From", b.From.getD "")],
        HTML := b.HTML.getD DefaultEmailConfig.HTML, XXX := [] } := by
  have hok := normalizeHeaders_ok_of_nodup (b.Headers.getD []) [] (by simpa using hn)
  have hS : mapLookup "Subject" ((b.Headers.getD DefaultEmailConfig.Headers).map canonPair) =
      none := mapLookup_canon_none _ (by decide) _
  have hT : mapLookup "To" ((b.Headers.getD DefaultEmailConfig.Headers).map canonPair ++
      [("Subject", DefaultEmailSubject)]) = none := by
    rw [mapLookup_append_right]
    · simp [mapLookup]
    · intro hmem
      rw [List.map_map, List.mem_map] at hmem
      obtain ⟨p, _, hp⟩ := hmem
      exact ne_stringsToTitle_of_hasLowerChar "To" (by decide) p.1 hp
  have hF : mapLookup "From" ((b.Headers.getD DefaultEmailConfig.Headers).map canonPair ++
      [("Subject", DefaultEmailSubject)] ++ [("To", b.To.getD DefaultEmailConfig.To)]) = none := by
    rw [List.append_assoc, mapLookup_append_right]
    · simp [mapLookup]
    · intro hmem
      rw [List.map_map, List.mem_map] at hmem
      obtain ⟨p, _, hp⟩ := hmem
      exact ne_stringsToTitle_of_hasLowerChar "From" (by decide) p.1 hp
  unfold EmailConfig.unmarshalYAML
  dsimp only
  rw [if_neg (show ¬ b.To.getD DefaultEmailConfig.To = "" from ht)]
  rw [show normalizeHeaders (b.Headers.getD DefaultEmailConfig.Headers) [] =
    Except.ok ([] ++ (b.Headers.getD DefaultEmailConfig.Headers).map canonPair) from hok]
  dsimp only
  rw [List.nil_append]
  rw [hS]
  simp only [Option.isSome_none, Bool.false_eq_true, if_false]
  rw [hT]
  simp only [Option.isSome_none, Bool.false_eq_true, if_false]
  rw [hF]
  simp only [Option.isSome_none, Bool.false_eq_true, if_false]
  rw [show b.residual = [] from hr, checkOverflow_nil]
  simp [DefaultEmailConfig, List.append_assoc]

/-- Claim C5 (confirmed): for an Email block with a non-empty `to` and no
residual keys, if two distinct supplied header names share a normalized
(case-folded) form — equivalently, the list of normalized names has a
repeat — decoding fails with a duplicate-header error naming a repeated
normalized form; if all normalized names are distinct, the decode
succeeds, so no duplicate-header error occurs. -/
theorem email_duplicate_header_detection (hs : List (String × String)) (tov frv : String)
    (htov : tov ≠ "") (hnames : (hs.map Prod.fst).Nodup) :
    (¬ (hs.map (fun p => stringsToTitle p.1)).Nodup →
      ∃ n, 2 ≤ (hs.map (fun p => stringsToTitle p.1)).count n ∧
        EmailConfig.unmarshalYAML
          { To := some tov, From := some frv, Smarthost := none,
            Headers := some hs, HTML := none, residual := [] } =
          Except.error (dupHeaderMsg n)) ∧
    ((hs.map (fun p => stringsToTitle p.1)).Nodup →
      ∃ c, EmailConfig.unmarshalYAML
          { To := some tov, From := some frv, Smarthost := none,
            Headers := some hs, HTML := none, residual := [] } = Except.ok c) := by
  constructor
  · intro hdup
    obtain ⟨n, herr, hcount⟩ := normalizeHeaders_err_of_dup hs [] (by simp) (by simpa using hdup)
    refine ⟨n, by simpa using hcount, ?_⟩
    unfold EmailConfig.unmarshalYAML
    dsimp only
    rw [if_neg (show ¬ (some tov).getD DefaultEmailConfig.To = "" from htov)]
    rw [show normalizeHeaders ((some hs).getD DefaultEmailConfig.Headers) [] =
      Except.error (dupHeaderMsg n) from herr]
  · intro hnodup
    exact ⟨_, email_ok_of
      { To := some tov, From := some frv, Smarthost := none,
        Headers := some hs, HTML := none, residual := [] }
      htov (by simpa using hnodup) rfl⟩

/-- Witness for `email_duplicate_header_detection`: the headers
`{"Content-Type": "x", "content-type": "y"}` collide on the normalized
form `CONTENT-TYPE`, and the singleton header map `{"X-Priority": "1"}`
decodes without a duplicate-header error. -/
theorem email_duplicate_header_detection_witness :
    (∃ n, 2 ≤ ([("Content-Type", "x"), ("content-type", "y")].map
        (fun p => stringsToTitle p.1)).count n ∧
      EmailConfig.unmarshalYAML
        { To := some "a@b.com", From := some "c@d.com", Smarthost := none,
          Headers := some [("Content-Type", "x"), ("content-type", "y")],
          HTML := none, residual := [] } = Except.error (dupHeaderMsg n)) ∧
    (∃ c, EmailConfig.unmarshalYAML
        { To := some "a@b.com", From := some "c@d.com", Smarthost := none,
          Headers := some [("X-Priority", "1")], HTML := none, residual := [] } =
        Except.ok c) :=
  ⟨(email_duplicate_header_detection [("Content-Type", "x"), ("content-type", "y")]
      "a@b.com" "c@d.com" (by decide) (by decide)).1 (by decide),
   (email_duplicate_header_detection [("X-Priority", "1")]
      "a@b.com" "c@d.com" (by decide) (by decide)).2 (by decide)⟩

/-- Claim C10 (amended): after every successful Email decode the headers
map binds the exact keys `Subject`, `To` and `From` to the module default
subject, the to-address and the from-address (these three are always
inserted, because the insertion guards compare against mixed-case keys
that normalization can never produce); every supplied header appears
under its title-cased form with its supplied value; and a supplied
mixed-case name other than the exact strings `Subject`, `To`, `From`
(which the default injection always adds) is not a key of the result. -/
theorem email_headers_canonical_shape (b : EmailBlock) (c : EmailConfig)
    (h : EmailConfig.unmarshalYAML b = Except.ok c) :
    mapLookup "Subject" c.Headers = some DefaultEmailSubject ∧
    mapLookup "To" c.Headers = some c.To ∧
    mapLookup "From" c.Headers = some c.From ∧
    ∀ p ∈ b.Headers.getD [], mapLookup (stringsToTitle p.1) c.Headers = some p.2 ∧
      (p.1 ≠ stringsToTitle p.1 → p.1 ≠ "Subject" → p.1 ≠ "To" → p.1 ≠ "From" →
        mapLookup p.1 c.Headers = none) := by
  obtain ⟨ht, hres, hnorm, hcTo, hcFrom, hH, hnodup⟩ := email_ok_inv b c h
  have hskipS : mapLookup "Subject" ((b.Headers.getD []).map canonPair) = none :=
    mapLookup_canon_none _ (by decide) _
  have hskipT : mapLookup "To" ((b.Headers.getD []).map canonPair) = none :=
    mapLookup_canon_none _ (by decide) _
  have hskipF : mapLookup "From" ((b.Headers.getD []).map canonPair) = none :=
    mapLookup_canon_none _ (by decide) _
  have hnotmem : ∀ t : String, mapLookup t ((b.Headers.getD []).map canonPair) = none →
      t ∉ ((b.Headers.getD []).map canonPair).map Prod.fst := by
    intro t hnone hmem
    have := (mapLookup_isSome_iff t ((b.Headers.getD []).map canonPair)).mpr hmem
    rw [hnone] at this
    cases this
  refine ⟨?_, ?_, ?_, ?_⟩
  · rw [hH, mapLookup_append_right _ _ _ (hnotmem _ hskipS)]
    simp [mapLookup]
  · rw [hH, mapLookup_append_right _ _ _ (hnotmem _ hskipT), hcTo]
    simp [mapLookup]
  · rw [hH, mapLookup_append_right _ _ _ (hnotmem _ hskipF), hcFrom]
    simp [mapLookup]
  · intro p hp
    constructor
    · have hmemL : canonPair p ∈ (b.Headers.getD []).map canonPair :=
        List.mem_map_of_mem canonPair hp
      have hlook : mapLookup (stringsToTitle p.1) ((b.Headers.getD []).map canonPair) =
          some p.2 := mapLookup_of_mem_nodup _ _ _ hnodup hmemL
      rw [hH]
      exact mapLookup_append_left _ _ _ _ hlook
    · intro hmix hS2 hT2 hF2
      have hlowp : hasLowerChar p.1 = true := hasLowerChar_of_ne_stringsToTitle p.1 hmix
      have hskipP : mapLookup p.1 ((b.Headers.getD []).map canonPair) = none :=
        mapLookup_canon_none _ hlowp _
      rw [hH, mapLookup_append_right _ _ _ (hnotmem _ hskipP)]
      simp only [mapLookup]
      rw [if_neg (fun hx => hS2 hx.symm), if_neg (fun hx => hT2 hx.symm),
        if_neg (fun hx => hF2 hx.symm)]

/-- Witness for `email_headers_canonical_shape` at a block supplying the
single header `X-Priority: 1`. -/
theorem email_headers_canonical_shape_witness :
    mapLookup "Subject"
      [("X-PRIORITY", "1"), ("Subject", DefaultEmailSubject),
       ("To", "a@b.com"), ("From", "c@d.com")] = some DefaultEmailSubject ∧
    mapLookup "X-PRIORITY"
      [("X-PRIORITY", "1"), ("Subject", DefaultEmailSubject),
       ("To", "a@b.com"), ("From", "c@d.com")] = some "1" ∧
    mapLookup "X-Priority"
      [("X-PRIORITY", "1"), ("Subject", DefaultEmailSubject),
       ("To", "a@b.com"), ("From", "c@d.com")] = none := by
  have h := email_headers_canonical_shape
    { To := some "a@b.com", From := some "c@d.com", Smarthost := none,
      Headers := some [("X-Priority", "1")], HTML := none, residual := [] }
    { To := "a@b.com", From := "c@d.com", Smarthost := "",
      Headers := [("X-PRIORITY", "1"), ("Subject", DefaultEmailSubject),
                  ("To", "a@b.com"), ("From", "c@d.com")],
      HTML := DefaultEmailConfig.HTML, XXX := [] }
    (by decide)
  have hp := h.2.2.2 ("X-Priority", "1") (by decide)
  refine ⟨h.1, ?_, ?_⟩
  · have := hp.1
    simpa using this
  · exact hp.2 (by decide) (by decide) (by decide) (by decide)
